import Mathlib

/-!
Verification of the servicetitan-hourly-revenue-pipeline core against its
specification.

The development shallowly embeds the pipeline's core algorithms:
* `src/transform/revenue_transformer.py` (`RevenueTransformer.transform`),
* `src/export/excel_writer.py` (`ExcelWriter.write_invoices` merge step),
* `src/export/google_sheets_writer.py` (`GoogleSheetsWriter.write_invoices`
  merge step),
* `src/services/api_client.py` (`ApiClient.get_paginated`),
* `src/services/auth.py` (`OAuthClientCredentialsProvider.get_token`),
* `src/services/revenue_service.py` (`RevenueService.update_sync_state_to_now`).

Python/JSON values are modelled by `JValue`; pandas cells by `Option`-typed
fields; machine floats for monetary totals by `PyNum` (finite rationals plus
positive/negative infinity and not-a-number markers); instants by integer
epoch seconds or by a `PyDateTime` record.  All definitions are executable.
-/

/-- A JSON/Python value as it appears in API payloads and records. -/
inductive JValue where
  | null
  | bool (b : Bool)
  | num (q : Rat)
  | str (s : String)
  | arr (xs : List JValue)
  | obj (fields : List (String × JValue))

/-- Python truthiness (`bool(v)`): `None`, `False`, `0`, `""`, `[]`, and
an empty dict are falsy; everything else is truthy. -/
def truthy : JValue → Bool
  | .null => false
  | .bool b => b
  | .num q => decide (q ≠ 0)
  | .str s => !s.data.isEmpty
  | .arr xs => !xs.isEmpty
  | .obj fields => !fields.isEmpty

/-- Python `a or b`: returns `a` when `a` is truthy, else `b`. -/
def pyOr (a b : JValue) : JValue := if truthy a then a else b

/-- A raw upstream record (`Dict[str, Any]` in the source), as an
association list.  Duplicate keys are not produced by JSON decoding, so the
list is treated as a finite map. -/
def RawRecord : Type := List (String × JValue)

/-- Python `d.get(k)` with default `None` on a raw record. -/
def dictGet (inv : RawRecord) (k : String) : JValue :=
  (List.lookup k inv).getD .null

/-- Python `str(v)` on the scalar values the pipeline meets.  The reprs of
containers are abbreviated placeholders: no claim or theorem depends on
string casts of lists or dicts, and the rational repr approximates the
float repr. -/
def pyRepr : JValue → String
  | .null => "None"
  | .bool true => "True"
  | .bool false => "False"
  | .num q => if q.den = 1 then toString q.num else toString q
  | .str s => s
  | .arr _ => "[...]"
  | .obj _ => "\x7b...\x7d"

/-- `RevenueTransformer._safe_get(d, *keys)`: walk nested dicts, returning
`None` as soon as the current value is not a dict (`isinstance(cur, dict)`
check) or a key is absent. -/
def safeGetVal : JValue → List String → JValue
  | cur, [] => cur
  | .obj fields, k :: ks => safeGetVal ((List.lookup k fields).getD .null) ks
  | _, _ :: _ => .null

/-- `RevenueTransformer._safe_get` applied to a record (the first
`isinstance(cur, dict)` test always passes because `inv` is a dict). -/
def safe_get (inv : RawRecord) (keys : List String) : JValue :=
  safeGetVal (.obj inv) keys

/-- First-truthy-wins over a list of candidate values, returning the last
candidate when none before it is truthy (the semantics of a Python
`a or b or ... or z` chain).  Used as the specification-side description in
the amended claim C3. -/
def firstTruthy : List JValue → JValue
  | [] => .null
  | [v] => v
  | v :: vs => if truthy v then v else firstTruthy vs

/-! ### Field extraction (`revenue_transformer.py` lines 50-71) -/

/-- `inv.get("id") or inv.get("invoiceId") or inv.get("invoice_id")`. -/
def extract_invoice_id (inv : RawRecord) : JValue :=
  pyOr (pyOr (dictGet inv "id") (dictGet inv "invoiceId")) (dictGet inv "invoice_id")

/-- `inv.get("invoiceDate") or inv.get("date") or inv.get("createdOn")`. -/
def extract_invoice_date_raw (inv : RawRecord) : JValue :=
  pyOr (pyOr (dictGet inv "invoiceDate") (dictGet inv "date")) (dictGet inv "createdOn")

/-- `inv.get("modifiedOn") or inv.get("updatedOn") or inv.get("updatedAt")
or inv.get("updated_at")`. -/
def extract_updated_at_raw (inv : RawRecord) : JValue :=
  pyOr (pyOr (pyOr (dictGet inv "modifiedOn") (dictGet inv "updatedOn"))
      (dictGet inv "updatedAt"))
    (dictGet inv "updated_at")

/-- `self._safe_get(inv, "businessUnit", "name") or inv.get("businessUnitName")
or inv.get("businessUnit")`. -/
def extract_business_unit_name (inv : RawRecord) : JValue :=
  pyOr (pyOr (safe_get inv ["businessUnit", "name"]) (dictGet inv "businessUnitName"))
    (dictGet inv "businessUnit")

/-- `self._safe_get(inv, "jobType", "name") or inv.get("jobTypeName") or
inv.get("jobType")`. -/
def extract_job_type_name (inv : RawRecord) : JValue :=
  pyOr (pyOr (safe_get inv ["jobType", "name"]) (dictGet inv "jobTypeName"))
    (dictGet inv "jobType")

/-- `inv.get("total") or inv.get("totalAmount") or
self._safe_get(inv, "summary", "total")`. -/
def extract_total (inv : RawRecord) : JValue :=
  pyOr (pyOr (dictGet inv "total") (dictGet inv "totalAmount"))
    (safe_get inv ["summary", "total"])

/-- The per-record dict appended to `rows` in `transform` (lines 73-82),
before the pandas formatting passes. -/
structure RawRow where
  invoice_id : JValue
  invoice_date : JValue
  business_unit : JValue
  job_type : JValue
  total_amount : JValue
  updated_at : JValue

/-- Build the intermediate row from one raw record (the loop body of
`RevenueTransformer.transform`). -/
def extractRecord (inv : RawRecord) : RawRow :=
  { invoice_id := extract_invoice_id inv
  , invoice_date := extract_invoice_date_raw inv
  , business_unit := extract_business_unit_name inv
  , job_type := extract_job_type_name inv
  , total_amount := extract_total inv
  , updated_at := extract_updated_at_raw inv }

/-! ### Numeric cells -/

/-- The value space of pandas float cells: finite rationals plus the
non-representable IEEE values the sheet writer sanitizes. -/
inductive PyNum where
  | finite (q : Rat)
  | inf
  | neginf
  | nan
deriving DecidableEq

/-- Parse a decimal string (optional sign, digits, optional fractional
digits), the shapes `pd.to_numeric` accepts for this pipeline's data;
exponents and textual infinities are out of the modelled value domain. -/
def parseDecimalChars (cs : List Char) : Option Rat :=
  let (sign, rest) :=
    match cs with
    | '-' :: r => ((-1 : Rat), r)
    | '+' :: r => ((1 : Rat), r)
    | r => ((1 : Rat), r)
  let intPart := rest.takeWhile (·.isDigit)
  let rest2 := rest.dropWhile (·.isDigit)
  if intPart.isEmpty then none
  else
    let iv : Nat := intPart.foldl (fun acc c => acc * 10 + (c.toNat - 48)) 0
    match rest2 with
    | [] => some (sign * (iv : Rat))
    | '.' :: fr =>
      if fr.all (·.isDigit) && !fr.isEmpty then
        let fv : Nat := fr.foldl (fun acc c => acc * 10 + (c.toNat - 48)) 0
        some (sign * ((iv : Rat) + (fv : Rat) / ((10 : Rat) ^ fr.length)))
      else none
    | _ => none

/-- `pd.to_numeric(v, errors="coerce")` on one cell: numbers pass through,
booleans coerce to 0/1, numeric strings parse, everything else (including
`None`) becomes NaN, which pandas treats as the null cell (`none`). -/
def pandasToNumeric : JValue → Option PyNum
  | .num q => some (.finite q)
  | .bool b => some (.finite (if b then 1 else 0))
  | .str s => (parseDecimalChars s.data).map .finite
  | _ => none

/-! ### Datetimes -/

/-- A timezone-aware (UTC) Python datetime, microsecond precision. -/
structure PyDateTime where
  year : Nat
  month : Nat
  day : Nat
  hour : Nat
  minute : Nat
  second : Nat
  microsecond : Nat
deriving DecidableEq

/-- Order-embedding of a datetime into `Nat`; component bounds are enforced
by the parser, so comparing keys is comparing instants. -/
def tsKey (t : PyDateTime) : Nat :=
  ((((((t.year * 13 + t.month) * 32 + t.day) * 24 + t.hour) * 60 + t.minute)
      * 60 + t.second) * 1000000) + t.microsecond

def digitVal (c : Char) : Option Nat :=
  if c.isDigit then some (c.toNat - 48) else none

def read2 : List Char → Option (Nat × List Char)
  | a :: b :: rest => do pure (10 * (← digitVal a) + (← digitVal b), rest)
  | _ => none

def read4 (cs : List Char) : Option (Nat × List Char) := do
  let (hi, cs) ← read2 cs
  let (lo, cs) ← read2 cs
  pure (100 * hi + lo, cs)

def expectChar (c : Char) : List Char → Option (List Char)
  | x :: rest => if x == c then some rest else none
  | [] => none

def isLeapYear (y : Nat) : Bool :=
  (y % 4 == 0 && y % 100 != 0) || y % 400 == 0

def daysInMonth (y m : Nat) : Nat :=
  if m == 2 then (if isLeapYear y then 29 else 28)
  else if m == 4 || m == 6 || m == 9 || m == 11 then 30 else 31

/-- Leading digits as a list of values, with the unread remainder. -/
def takeDigits : List Char → (List Nat × List Char)
  | c :: rest =>
    if c.isDigit then
      let (ds, r) := takeDigits rest
      ((c.toNat - 48) :: ds, r)
    else ([], c :: rest)
  | [] => ([], [])

/-- Fractional-second digits to microseconds (zero-padded to 6 places,
extra precision truncated, matching `%f` handling). -/
def fracToMicro (ds : List Nat) : Nat :=
  ((ds.take 6) ++ List.replicate (6 - ds.length) 0).foldl
    (fun acc d => acc * 10 + d) 0

def parseTimePart (y mo d : Nat) (cs : List Char) : Option PyDateTime := do
  let (h, cs) ← read2 cs
  let cs ← expectChar ':' cs
  let (mi, cs) ← read2 cs
  let cs ← expectChar ':' cs
  let (s, cs) ← read2 cs
  let (us, cs) :=
    match cs with
    | '.' :: rest =>
      let (ds, r) := takeDigits rest
      (fracToMicro ds, r)
    | _ => (0, cs)
  if h < 24 ∧ mi < 60 ∧ s < 60 ∧
      (cs = [] ∨ cs = ['Z'] ∨ cs = ['+', '0', '0', ':', '0', '0']) then
    some ⟨y, mo, d, h, mi, s, us⟩
  else none

/-- ISO-8601 date/datetime parser covering the shapes this pipeline's
timestamps take (date, optional `T`/space-separated time, optional
fractional seconds, optional `Z` or `+00:00` zone).  Values outside this
language parse to `none`, the model of `NaT`. -/
def parseDtChars (cs : List Char) : Option PyDateTime := do
  let (y, cs) ← read4 cs
  let cs ← expectChar '-' cs
  let (mo, cs) ← read2 cs
  let cs ← expectChar '-' cs
  let (d, cs) ← read2 cs
  if 1 ≤ mo ∧ mo ≤ 12 ∧ 1 ≤ d ∧ d ≤ daysInMonth y mo then
    match cs with
    | [] => some ⟨y, mo, d, 0, 0, 0, 0⟩
    | 'T' :: rest => parseTimePart y mo d rest
    | ' ' :: rest => parseTimePart y mo d rest
    | _ => none
  else none

/-- `pd.to_datetime(s, errors="coerce")` on one string cell. -/
def parsePdTimestamp (s : String) : Option PyDateTime := parseDtChars s.data

/-- `pd.to_datetime(v, errors="coerce", utc=True)` on one cell.  Non-string
scalars coerce to `NaT` in this model (pandas would read bare numbers as
epoch offsets; the pipeline's date fields are strings or null, and no claim
depends on numeric date cells). -/
def pandasToDatetime : JValue → Option PyDateTime
  | .str s => parsePdTimestamp s
  | _ => none

/-! ### Datetime formatting -/

/-- The decimal digit character for `d % 10`. -/
def digitChar (d : Nat) : Char :=
  if d % 10 = 0 then '0'
  else if d % 10 = 1 then '1'
  else if d % 10 = 2 then '2'
  else if d % 10 = 3 then '3'
  else if d % 10 = 4 then '4'
  else if d % 10 = 5 then '5'
  else if d % 10 = 6 then '6'
  else if d % 10 = 7 then '7'
  else if d % 10 = 8 then '8'
  else '9'

def pad2chars (n : Nat) : List Char := [digitChar (n / 10), digitChar n]

def pad4chars (n : Nat) : List Char :=
  [digitChar (n / 1000), digitChar (n / 100), digitChar (n / 10), digitChar n]

def pad6chars (n : Nat) : List Char :=
  [digitChar (n / 100000), digitChar (n / 10000), digitChar (n / 1000),
    digitChar (n / 100), digitChar (n / 10), digitChar n]

/-- `%Y-%m-%d` (also the date part of `isoformat`). -/
def dateChars (t : PyDateTime) : List Char :=
  pad4chars t.year ++ '-' :: pad2chars t.month ++ '-' :: pad2chars t.day

/-- `%H:%M:%S`. -/
def timeChars (t : PyDateTime) : List Char :=
  pad2chars t.hour ++ ':' :: pad2chars t.minute ++ ':' :: pad2chars t.second

/-- `dt.strftime("%Y-%m-%d")`. -/
def strftimeDate (t : PyDateTime) : String := String.mk (dateChars t)

/-- `dt.strftime("%Y-%m-%dT%H:%M:%SZ")` (no fractional seconds). -/
def strftimeIsoZ (t : PyDateTime) : String :=
  String.mk (dateChars t ++ 'T' :: timeChars t ++ ['Z'])

/-! ### Normalized rows and the transform -/

/-- A `NormalizedRow`: one row of the transform's output DataFrame.
String-typed cells are `Option String` (pandas `<NA>` is `none`),
the monetary total is an optional `PyNum`. -/
structure Row where
  invoice_id : Option String
  invoice_date : Option String
  business_unit : Option String
  job_type : Option String
  total_amount : Option PyNum
  updated_at : Option String
deriving DecidableEq

/-- `RevenueTransformer.REQUIRED_COLUMNS`. -/
def REQUIRED_COLUMNS : List String :=
  ["invoice_id", "invoice_date", "business_unit", "job_type",
    "total_amount", "updated_at"]

/-- A cell value for stating schema facts uniformly. -/
inductive CellVal where
  | s (v : String)
  | n (v : PyNum)
  | null
deriving DecidableEq

/-- The cells of a row in column order. -/
def rowCells (r : Row) : List (String × CellVal) :=
  [ ("invoice_id", (r.invoice_id.map .s).getD .null)
  , ("invoice_date", (r.invoice_date.map .s).getD .null)
  , ("business_unit", (r.business_unit.map .s).getD .null)
  , ("job_type", (r.job_type.map .s).getD .null)
  , ("total_amount", (r.total_amount.map .n).getD .null)
  , ("updated_at", (r.updated_at.map .s).getD .null) ]

/-- `series.astype("string")` on one cell: null stays null, strings pass,
other scalars are `str(...)`-rendered. -/
def pandasAstypeString : JValue → Option String
  | .null => none
  | .str s => some s
  | v => some (pyRepr v)

/-- The pandas formatting passes of `transform` (lines 96-107) applied to
one intermediate row. -/
def formatRow (r : RawRow) : Row :=
  { invoice_id := pandasAstypeString r.invoice_id
  , invoice_date := (pandasToDatetime r.invoice_date).map strftimeDate
  , business_unit := pandasAstypeString r.business_unit
  , job_type := pandasAstypeString r.job_type
  , total_amount := pandasToNumeric r.total_amount
  , updated_at := (pandasToDatetime r.updated_at).map strftimeIsoZ }

/-- The transform's output frame: the fixed column list plus the rows.
`df = df[REQUIRED_COLUMNS]` fixes the columns even for empty input. -/
structure DataFrame where
  cols : List String
  rows : List Row
deriving DecidableEq

/-- `RevenueTransformer.transform`. -/
def transform (invoices : List RawRecord) : DataFrame :=
  { cols := REQUIRED_COLUMNS
  , rows := invoices.map (fun inv => formatRow (extractRecord inv)) }

/-! ### String comparison (Python/pandas lexicographic order) -/

/-- Strict lexicographic order on char lists by code point, the order
pandas uses on string cells. -/
def strLtb : List Char → List Char → Bool
  | [], [] => false
  | [], _ :: _ => true
  | _ :: _, [] => false
  | a :: as, b :: bs => decide (a < b) || (a == b && strLtb as bs)

/-- Non-strict lexicographic order on char lists. -/
def strLeb (as bs : List Char) : Bool := strLtb as bs || as == bs

/-! ### The merge/dedup core shared by both sink writers -/

/-- Strict order on the `invoice_id` sort key: ascending, with null last
(pandas `na_position="last"`). -/
def optIdLt : Option String → Option String → Bool
  | none, _ => false
  | some _, none => true
  | some x, some y => strLtb x.data y.data

/-- The timestamp-value order on excel `updated_at` cells (string cells as
pandas compares them): null is smaller than every string. -/
def updValLe : Option String → Option String → Bool
  | none, _ => true
  | some _, none => false
  | some x, some y => strLeb x.data y.data

/-- The timestamp-value order on parsed `updated_at` cells (datetime cells
as pandas compares them): `NaT` is smaller than every instant. -/
def tsValLe : Option PyDateTime → Option PyDateTime → Bool
  | none, _ => true
  | some _, none => false
  | some u, some v => decide (tsKey u ≤ tsKey v)

/-- `sort_values(by=[invoice_id, updated_at], ascending=[True, False],
na_position="last")` as a before-or-equal relation, parameterized by the
order on `updated_at` values: primary key `invoice_id` ascending with null
last, secondary key `updated_at` descending with null last. -/
def keyedLe {υ : Type} (updLe : υ → υ → Bool)
    (id₁ id₂ : Option String) (u₁ u₂ : υ) : Bool :=
  optIdLt id₁ id₂ || (id₁ == id₂ && updLe u₂ u₁)

/-- The excel writer's row order (`updated_at` compared as strings after
`astype("string")`). -/
def excelLe (a b : Row) : Bool :=
  keyedLe updValLe a.invoice_id b.invoice_id a.updated_at b.updated_at

def ExcelLeP (a b : Row) : Prop := excelLe a b = true

instance : DecidableRel ExcelLeP :=
  fun a b => inferInstanceAs (Decidable (excelLe a b = true))

/-- A sheet row after the `pd.to_datetime` pass: `updated_at` holds a
parsed timestamp (or `NaT`). -/
structure SheetRow where
  invoice_id : Option String
  invoice_date : Option String
  business_unit : Option String
  job_type : Option String
  total_amount : Option PyNum
  updated_at : Option PyDateTime
deriving DecidableEq

/-- The `combined[updated_col] = pd.to_datetime(combined[updated_col],
errors="coerce")` column rewrite, per row. -/
def toSheetRow (r : Row) : SheetRow :=
  { invoice_id := r.invoice_id
  , invoice_date := r.invoice_date
  , business_unit := r.business_unit
  , job_type := r.job_type
  , total_amount := r.total_amount
  , updated_at := r.updated_at.bind parsePdTimestamp }

/-- The sheets writer's row order (`updated_at` compared as parsed
datetimes). -/
def sheetsLe (a b : SheetRow) : Bool :=
  keyedLe tsValLe a.invoice_id b.invoice_id a.updated_at b.updated_at

def SheetsLeP (a b : SheetRow) : Prop := sheetsLe a b = true

instance : DecidableRel SheetsLeP :=
  fun a b => inferInstanceAs (Decidable (sheetsLe a b = true))

/-- `drop_duplicates(subset=[key], keep="first")`: keep the first row for
each key value already in order, tracking seen keys.  pandas treats null
keys as equal to each other, as does `Option` equality here. -/
def dedupFirstBy {α κ : Type} [DecidableEq κ] (f : α → κ) :
    List α → List κ → List α
  | [], _ => []
  | x :: xs, seen =>
    if f x ∈ seen then dedupFirstBy f xs seen
    else x :: dedupFirstBy f xs (f x :: seen)

/-- `ExcelWriter.write_invoices` merge step (lines 49-65): concatenate
existing sink rows and incoming rows, cast `updated_at` to string (identity
on these typed rows), stable-sort by (invoice_id asc, updated_at desc,
nulls last), deduplicate keeping the first row per invoice_id, reorder to
the fixed schema (identity on structured rows).  The `if not combined.empty`
guard is kept literally. -/
def excel_write_invoices (existing incoming : List Row) : List Row :=
  let combined := existing ++ incoming
  if combined.isEmpty then combined
  else dedupFirstBy (·.invoice_id) (List.insertionSort ExcelLeP combined) []

/-- `replace([inf, -inf], None)` followed by `where(pd.notnull, None)` on a
row: non-finite totals become null; all other cells are already optional. -/
def sanitizeSheetRow (r : SheetRow) : SheetRow :=
  { r with
    total_amount :=
      match r.total_amount with
      | some (.finite q) => some (.finite q)
      | _ => none }

/-- `GoogleSheetsWriter.write_invoices` merge step (lines 89-108):
concatenate existing and incoming rows, parse `updated_at` with
`pd.to_datetime(errors="coerce")`, sort by (invoice_id asc, updated_at
desc, nulls last), deduplicate keeping the first row per invoice_id, then
sanitize non-finite numerics.  The `dedupe_key in combined.columns`
guard always holds on these fixed-schema rows. -/
def sheets_write_invoices (existing incoming : List Row) : List SheetRow :=
  let combined := (existing ++ incoming).map toSheetRow
  (dedupFirstBy (·.invoice_id) (List.insertionSort SheetsLeP combined) []).map
    sanitizeSheetRow

/-! ### Pagination (`api_client.py` `get_paginated`) -/

/-- One page's JSON response: the `data` and `hasMore` fields
(`none` = key absent). -/
structure PageResponse where
  dataField : Option JValue
  hasMoreField : Option JValue

/-- `isinstance(item, dict)` filter: only mapping-typed elements yield. -/
def asMapping : JValue → Option (List (String × JValue))
  | .obj fields => some fields
  | _ => none

/-- The mapping-typed elements of a page's `data` value. -/
def pageMappingItems (p : PageResponse) : List (List (String × JValue)) :=
  match p.dataField.getD (.arr []) with
  | .arr xs => xs.filterMap asMapping
  | _ => []

/-- `bool(payload.get("hasMore", False))`. -/
def truthyHasMore (p : PageResponse) : Bool :=
  truthy (p.hasMoreField.getD (.bool false))

/-- Whether `payload.get("data", [])` is list-typed. -/
def dataIsList (p : PageResponse) : Bool :=
  match p.dataField.getD (.arr []) with
  | .arr _ => true
  | _ => false

inductive PaginateError where
  | dataNotList
deriving DecidableEq

/-- `ApiClient.get_paginated` drained into a list, with the issued
`(Page, PageSize)` query pairs.  The upstream is modelled as the list of
page responses for `Page = page, page+1, ...`; exhausting the list while
`hasMore` is truthy ends the recursion (the theorems' hypotheses keep the
stop inside the list, where the model and the unbounded loop agree). -/
def get_paginated (page_size : Nat) :
    Nat → List PageResponse →
    Except PaginateError (List (List (String × JValue)) × List (Nat × Nat))
  | _, [] => .ok ([], [])
  | page, p :: rest =>
    if dataIsList p then
      let items := pageMappingItems p
      if truthyHasMore p then
        match get_paginated page_size (page + 1) rest with
        | .ok (more, reqs) => .ok (items ++ more, (page, page_size) :: reqs)
        | .error e => .error e
      else .ok (items, [(page, page_size)])
    else .error .dataNotList

/-! ### Token provider (`auth.py`) -/

/-- A cached access token: `AccessToken(token, expires_at_epoch)`.
Epoch instants are modelled at integer-second granularity (the code holds
floats; the claims use only strict comparison and integer buffer
arithmetic, which the granularity change preserves). -/
structure AccessToken where
  token : String
  expires_at_epoch : Int
deriving DecidableEq

/-- `AccessToken.is_valid`: `time.time() < self.expires_at_epoch`. -/
def is_valid (nowT : Int) (t : AccessToken) : Bool :=
  decide (nowT < t.expires_at_epoch)

/-- The token endpoint's observable response. -/
structure HttpResponse where
  status_code : Nat
  /-- `resp.json()`; `none` models a body that is not valid JSON, on which
  `.json()` raises. -/
  jsonBody : Option JValue

/-- The outcome of the `requests.post` call. -/
inductive PostOutcome where
  | exn
  | resp (r : HttpResponse)

/-- What a failed token retrieval raised. -/
inductive TokenFailure where
  /-- `AuthError`. -/
  | authError
  /-- Any other uncaught exception (JSON decode failure, `int()` on a
  non-numeric value, attribute access on a non-dict payload). -/
  | pyExn
deriving DecidableEq

/-- Python `int(v)` on the payload values met here; `none` models a raised
`ValueError`/`TypeError`. -/
def pyIntCoerce : JValue → Option Int
  | .num q => some (q.num.tdiv (q.den : Int))
  | .bool b => some (if b then 1 else 0)
  | .str s =>
    let (sign, rest) :=
      match s.data with
      | '-' :: r => ((-1 : Int), r)
      | '+' :: r => ((1 : Int), r)
      | r => ((1 : Int), r)
    if rest.isEmpty || !rest.all (·.isDigit) then none
    else some (sign * (rest.foldl (fun acc c => acc * 10 + (c.toNat - 48)) 0 : Nat))
  | _ => none

/-- Python `str.strip()`. -/
def pyStrip (s : String) : String :=
  String.mk (((s.data.dropWhile Char.isWhitespace).reverse.dropWhile
    Char.isWhitespace).reverse)

/-- `OAuthClientCredentialsProvider._request_new_token`, with the network
interaction abstracted into the given outcome and the current instant. -/
def request_new_token (outcome : PostOutcome) (nowT : Int) :
    Except TokenFailure AccessToken :=
  match outcome with
  | .exn => .error .authError
  | .resp r =>
    if r.status_code ≠ 200 then .error .authError
    else
      match r.jsonBody with
      | none => .error .pyExn
      | some payload =>
        match payload with
        | .obj fields =>
          let access_token :=
            pyStrip (pyRepr ((List.lookup "access_token" fields).getD (.str "")))
          match pyIntCoerce ((List.lookup "expires_in" fields).getD (.num 0)) with
          | none => .error .pyExn
          | some expires_in =>
            if access_token = "" ∨ expires_in ≤ 0 then .error .authError
            else
              .ok { token := access_token
                  , expires_at_epoch := nowT + max 0 (expires_in - 30) }
        | _ => .error .pyExn

/-- `OAuthClientCredentialsProvider.get_token`: returns the result, the
new cached-token slot, and the number of network calls made (0 or 1). -/
def get_token (cached : Option AccessToken) (nowT : Int) (outcome : PostOutcome) :
    Except TokenFailure String × Option AccessToken × Nat :=
  match cached with
  | some t =>
    if is_valid nowT t then (.ok t.token, some t, 0)
    else
      match request_new_token outcome nowT with
      | .ok tok => (.ok tok.token, some tok, 1)
      | .error e => (.error e, some t, 1)
  | none =>
    match request_new_token outcome nowT with
    | .ok tok => (.ok tok.token, some tok, 1)
    | .error e => (.error e, none, 1)

/-! ### Sync cursor persistence (`revenue_service.py`) -/

/-- The cursor file's JSON payload: `{"last_sync_utc": ...}`, the sole
persisted field.  `SyncState.save` writes exactly this object with
`write_text` (a total overwrite). -/
structure SyncFileJson where
  last_sync_utc : Option String
deriving DecidableEq

/-- Naive textual replacement of every occurrence of a nonempty pattern,
left to right (Python `str.replace`), with fuel bounded by the text
length. -/
def charsReplace (pat rep : List Char) : Nat → List Char → List Char
  | 0, text => text
  | _ + 1, [] => []
  | fuel + 1, c :: cs =>
    if pat.isPrefixOf (c :: cs) then
      rep ++ charsReplace pat rep fuel (List.drop (pat.length - 1) cs)
    else c :: charsReplace pat rep fuel cs

/-- Python `s.replace(pat, rep)` for nonempty `pat`. -/
def pyReplace (s pat rep : String) : String :=
  String.mk (charsReplace pat.data rep.data s.data.length s.data)

/-- The `+00:00` UTC offset suffix `datetime.isoformat()` appends. -/
def plusZeroZone : List Char := ['+', '0', '0', ':', '0', '0']

/-- The microseconds part of `isoformat()`: omitted exactly when the
microsecond component is zero. -/
def microChars (t : PyDateTime) : List Char :=
  if t.microsecond = 0 then [] else '.' :: pad6chars t.microsecond

/-- `datetime.isoformat()` on a UTC-aware datetime:
`YYYY-MM-DDTHH:MM:SS[.ffffff]+00:00`. -/
def pyIsoformatUtc (t : PyDateTime) : String :=
  String.mk (dateChars t ++ 'T' :: timeChars t ++ microChars t ++ plusZeroZone)

/-- `RevenueService.update_sync_state_to_now`, as a function of the current
UTC instant: `datetime.now(timezone.utc).isoformat().replace("+00:00", "Z")`
saved as the sole field of the cursor file. -/
def update_sync_state_to_now (now : PyDateTime) : SyncFileJson :=
  { last_sync_utc := some (pyReplace (pyIsoformatUtc now) "+00:00" "Z") }

/-- Whether a total cell is representable (null or finite): the rows on
which the sheet sanitization pass is the identity. -/
def finiteTotal : Option PyNum → Bool
  | none => true
  | some (.finite _) => true
  | _ => false

/-- The index of the first page whose `hasMore` is falsy — where
`get_paginated` stops. -/
def stopIdx (ps : List PageResponse) : Nat :=
  ps.findIdx (fun p => !truthyHasMore p)

/-! ### Concrete values used by counterexamples and witnesses -/

/-- Incoming row with the January timestamp of the spec's dedup example. -/
def janRow : Row :=
  ⟨some "1", none, none, none, none, some "2024-01-01T00:00:00Z"⟩

/-- Incoming row with the February timestamp of the spec's dedup example. -/
def febRow : Row :=
  ⟨some "1", none, none, none, none, some "2024-02-01T00:00:00Z"⟩

/-- A row whose `updated_at` is a non-null unparseable string. -/
def zzzRow : Row :=
  ⟨some "1", none, none, none, none, some "zzz"⟩

/-- A row whose total is positive infinity. -/
def infRow : Row :=
  ⟨some "9", none, none, none, some .inf, some "2024-01-01T00:00:00Z"⟩

/-- A record whose first identifier alias holds the falsy value `0` while a
later alias holds `5`. -/
def zeroIdRec : RawRecord :=
  [("id", .num 0), ("invoiceId", .num 5)]

/-- A record whose date, timestamp and total are unparseable. -/
def badRec : RawRecord :=
  [("id", .str "7"), ("invoiceDate", .str "notadate"),
    ("modifiedOn", .str "alsobad"), ("total", .str "abc")]

/-- Two pages where the first page's `hasMore` is JSON `null` (present,
not `false`) and the second is the final page. -/
def nullMorePages : List PageResponse :=
  [ ⟨some (.arr [.obj [("k", .num 1)]]), some .null⟩
  , ⟨some (.arr [.obj [("k", .num 2)]]), some (.bool false)⟩ ]

/-- Two well-formed pages: `hasMore=true` then `hasMore=false`. -/
def twoPages : List PageResponse :=
  [ ⟨some (.arr [.obj [("a", .num 1)]]), some (.bool true)⟩
  , ⟨some (.arr [.obj [("b", .num 2)]]), some (.bool false)⟩ ]

/-! ## Helper lemmas: the lexicographic string order -/

theorem strLtb_irrefl : ∀ as : List Char, strLtb as as = false
  | [] => rfl
  | a :: as => by simp [strLtb, strLtb_irrefl as]

theorem strLtb_trans : ∀ as bs cs : List Char,
    strLtb as bs = true → strLtb bs cs = true → strLtb as cs = true := by
  intro as
  induction as with
  | nil =>
    intro bs cs h1 h2
    cases bs with
    | nil => exact h2
    | cons b bs =>
      cases cs with
      | nil => simp [strLtb] at h2
      | cons c cs => simp [strLtb]
  | cons a as ih =>
    intro bs cs h1 h2
    cases bs with
    | nil => simp [strLtb] at h1
    | cons b bs =>
      cases cs with
      | nil => simp [strLtb] at h2
      | cons c cs =>
        simp only [strLtb, Bool.or_eq_true, Bool.and_eq_true, decide_eq_true_eq,
          beq_iff_eq] at h1 h2 ⊢
        rcases h1 with h1 | ⟨hab, h1⟩ <;> rcases h2 with h2 | ⟨hbc, h2⟩
        · exact Or.inl (lt_trans h1 h2)
        · subst hbc; exact Or.inl h1
        · subst hab; exact Or.inl h2
        · subst hab; subst hbc; exact Or.inr ⟨rfl, ih bs cs h1 h2⟩

theorem strLtb_eq_of_not : ∀ as bs : List Char,
    strLtb as bs = false → strLtb bs as = false → as = bs := by
  intro as
  induction as with
  | nil =>
    intro bs h1 h2
    cases bs with
    | nil => rfl
    | cons b bs => simp [strLtb] at h1
  | cons a as ih =>
    intro bs h1 h2
    cases bs with
    | nil => simp [strLtb] at h2
    | cons b bs =>
      by_cases hab : a = b
      · subst hab
        simp only [strLtb, Bool.or_eq_false_iff, Bool.and_eq_false_iff,
          beq_self_eq_true, Bool.true_eq_false, false_or] at h1 h2
        rw [ih bs h1.2 h2.2]
      · exfalso
        have hba : b ≠ a := Ne.symm hab
        simp only [strLtb, Bool.or_eq_false_iff, decide_eq_false_iff_not,
          Bool.and_eq_false_iff, beq_eq_false_iff_ne, ne_eq] at h1 h2
        exact hab (le_antisymm (not_lt.mp h2.1) (not_lt.mp h1.1))

theorem strLeb_refl (as : List Char) : strLeb as as = true := by simp [strLeb]

theorem strLeb_total (as bs : List Char) :
    strLeb as bs = true ∨ strLeb bs as = true := by
  by_cases h1 : strLtb as bs = true
  · exact Or.inl (by simp [strLeb, h1])
  · by_cases h2 : strLtb bs as = true
    · exact Or.inr (by simp [strLeb, h2])
    · have heq := strLtb_eq_of_not as bs (by simpa using h1) (by simpa using h2)
      subst heq
      exact Or.inl (strLeb_refl as)

theorem strLeb_trans (as bs cs : List Char)
    (h1 : strLeb as bs = true) (h2 : strLeb bs cs = true) : strLeb as cs = true := by
  simp only [strLeb, Bool.or_eq_true, beq_iff_eq] at h1 h2 ⊢
  rcases h1 with h1 | rfl
  · rcases h2 with h2 | rfl
    · exact Or.inl (strLtb_trans as bs cs h1 h2)
    · exact Or.inl h1
  · exact h2

/-! ## Helper lemmas: the row sort keys -/

theorem optIdLt_irrefl : ∀ k : Option String, optIdLt k k = false
  | none => rfl
  | some s => by simpa [optIdLt] using strLtb_irrefl s.data

theorem optIdLt_trans (a b c : Option String)
    (h1 : optIdLt a b = true) (h2 : optIdLt b c = true) : optIdLt a c = true := by
  cases a with
  | none => simp [optIdLt] at h1
  | some x =>
    cases b with
    | none => simp [optIdLt] at h2
    | some y =>
      cases c with
      | none => rfl
      | some z =>
        simp only [optIdLt] at h1 h2 ⊢
        exact strLtb_trans x.data y.data z.data h1 h2

theorem optIdLt_connex : ∀ a b : Option String,
    optIdLt a b = false → optIdLt b a = false → a = b
  | none, none, _, _ => rfl
  | none, some _, _, h2 => by simp [optIdLt] at h2
  | some _, none, h1, _ => by simp [optIdLt] at h1
  | some ⟨xd⟩, some ⟨yd⟩, h1, h2 => by
    have h := strLtb_eq_of_not xd yd (by simpa [optIdLt] using h1)
      (by simpa [optIdLt] using h2)
    subst h
    rfl

theorem updValLe_refl : ∀ u : Option String, updValLe u u = true
  | none => rfl
  | some s => by simpa [updValLe] using strLeb_refl s.data

theorem updValLe_trans : ∀ a b c : Option String,
    updValLe a b = true → updValLe b c = true → updValLe a c = true
  | none, _, _, _, _ => rfl
  | some _, none, _, h1, _ => by simp [updValLe] at h1
  | some _, some _, none, _, h2 => by simp [updValLe] at h2
  | some x, some y, some z, h1, h2 => strLeb_trans x.data y.data z.data h1 h2

theorem updValLe_total : ∀ a b : Option String,
    updValLe a b = true ∨ updValLe b a = true
  | none, _ => Or.inl rfl
  | some _, none => Or.inr rfl
  | some x, some y => strLeb_total x.data y.data

theorem tsValLe_refl : ∀ u : Option PyDateTime, tsValLe u u = true
  | none => rfl
  | some t => by simp [tsValLe]

theorem tsValLe_trans : ∀ a b c : Option PyDateTime,
    tsValLe a b = true → tsValLe b c = true → tsValLe a c = true
  | none, _, _, _, _ => rfl
  | some _, none, _, h1, _ => by simp [tsValLe] at h1
  | some _, some _, none, _, h2 => by simp [tsValLe] at h2
  | some u, some v, some w, h1, h2 => by
    simp only [tsValLe, decide_eq_true_eq] at h1 h2 ⊢
    exact le_trans h1 h2

theorem tsValLe_total : ∀ a b : Option PyDateTime,
    tsValLe a b = true ∨ tsValLe b a = true
  | none, _ => Or.inl rfl
  | some _, none => Or.inr rfl
  | some u, some v => by
    simp only [tsValLe, decide_eq_true_eq]
    exact Nat.le_total (tsKey u) (tsKey v)

/-! ## Helper lemmas: the combined sort relation -/

theorem keyedLe_refl {υ : Type} (updLe : υ → υ → Bool)
    (hrefl : ∀ u, updLe u u = true) (id : Option String) (u : υ) :
    keyedLe updLe id id u u = true := by
  simp [keyedLe, optIdLt_irrefl, hrefl]

theorem keyedLe_total {υ : Type} (updLe : υ → υ → Bool)
    (htot : ∀ a b, updLe a b = true ∨ updLe b a = true)
    (i₁ i₂ : Option String) (u₁ u₂ : υ) :
    keyedLe updLe i₁ i₂ u₁ u₂ = true ∨ keyedLe updLe i₂ i₁ u₂ u₁ = true := by
  by_cases h12 : optIdLt i₁ i₂ = true
  · exact Or.inl (by simp [keyedLe, h12])
  · by_cases h21 : optIdLt i₂ i₁ = true
    · exact Or.inr (by simp [keyedLe, h21])
    · have heq : i₁ = i₂ := optIdLt_connex i₁ i₂ (by simpa using h12) (by simpa using h21)
      subst heq
      rcases htot u₁ u₂ with h | h
      · exact Or.inr (by simp [keyedLe, optIdLt_irrefl, h])
      · exact Or.inl (by simp [keyedLe, optIdLt_irrefl, h])

theorem keyedLe_trans {υ : Type} (updLe : υ → υ → Bool)
    (htr : ∀ a b c, updLe a b = true → updLe b c = true → updLe a c = true)
    (i₁ i₂ i₃ : Option String) (u₁ u₂ u₃ : υ)
    (h1 : keyedLe updLe i₁ i₂ u₁ u₂ = true)
    (h2 : keyedLe updLe i₂ i₃ u₂ u₃ = true) :
    keyedLe updLe i₁ i₃ u₁ u₃ = true := by
  simp only [keyedLe, Bool.or_eq_true, Bool.and_eq_true, beq_iff_eq] at h1 h2 ⊢
  rcases h1 with h1 | ⟨heq1, hu1⟩ <;> rcases h2 with h2 | ⟨heq2, hu2⟩
  · exact Or.inl (optIdLt_trans _ _ _ h1 h2)
  · subst heq2; exact Or.inl h1
  · subst heq1; exact Or.inl h2
  · subst heq1; subst heq2; exact Or.inr ⟨rfl, htr u₃ u₂ u₁ hu2 hu1⟩

theorem keyedLe_updLe_of_eq {υ : Type} (updLe : υ → υ → Bool)
    (i₁ i₂ : Option String) (u₁ u₂ : υ) (heq : i₁ = i₂)
    (h : keyedLe updLe i₁ i₂ u₁ u₂ = true) : updLe u₂ u₁ = true := by
  subst heq
  simpa [keyedLe, optIdLt_irrefl] using h

theorem excelLe_refl (a : Row) : ExcelLeP a a :=
  keyedLe_refl updValLe updValLe_refl a.invoice_id a.updated_at

theorem excelLe_total (a b : Row) : ExcelLeP a b ∨ ExcelLeP b a :=
  keyedLe_total updValLe updValLe_total a.invoice_id b.invoice_id
    a.updated_at b.updated_at

theorem excelLe_trans (a b c : Row) (h1 : ExcelLeP a b) (h2 : ExcelLeP b c) :
    ExcelLeP a c :=
  keyedLe_trans updValLe updValLe_trans a.invoice_id b.invoice_id c.invoice_id
    a.updated_at b.updated_at c.updated_at h1 h2

theorem sheetsLe_refl (a : SheetRow) : SheetsLeP a a :=
  keyedLe_refl tsValLe tsValLe_refl a.invoice_id a.updated_at

theorem sheetsLe_total (a b : SheetRow) : SheetsLeP a b ∨ SheetsLeP b a :=
  keyedLe_total tsValLe tsValLe_total a.invoice_id b.invoice_id
    a.updated_at b.updated_at

theorem sheetsLe_trans (a b c : SheetRow) (h1 : SheetsLeP a b) (h2 : SheetsLeP b c) :
    SheetsLeP a c :=
  keyedLe_trans tsValLe tsValLe_trans a.invoice_id b.invoice_id c.invoice_id
    a.updated_at b.updated_at c.updated_at h1 h2

theorem excel_sorted (l : List Row) :
    List.Sorted ExcelLeP (List.insertionSort ExcelLeP l) :=
  @List.sorted_insertionSort Row ExcelLeP inferInstance
    ⟨excelLe_total⟩ ⟨excelLe_trans⟩ l

theorem sheets_sorted (l : List SheetRow) :
    List.Sorted SheetsLeP (List.insertionSort SheetsLeP l) :=
  @List.sorted_insertionSort SheetRow SheetsLeP inferInstance
    ⟨sheetsLe_total⟩ ⟨sheetsLe_trans⟩ l

/-! ## Helper lemmas: keep-first deduplication -/

theorem dedupFirstBy_sublist {α κ : Type} [DecidableEq κ] (f : α → κ) :
    ∀ (l : List α) (seen : List κ), (dedupFirstBy f l seen).Sublist l := by
  intro l
  induction l with
  | nil => intro seen; simp [dedupFirstBy]
  | cons x xs ih =>
    intro seen
    by_cases h : f x ∈ seen
    · rw [dedupFirstBy, if_pos h]
      exact (ih seen).cons x
    · rw [dedupFirstBy, if_neg h]
      exact (ih (f x :: seen)).cons₂ x

theorem dedupFirstBy_mem {α κ : Type} [DecidableEq κ] (f : α → κ)
    {l : List α} {seen : List κ} {a : α} (h : a ∈ dedupFirstBy f l seen) :
    a ∈ l :=
  (dedupFirstBy_sublist f l seen).mem h

theorem dedupFirstBy_key_not_seen {α κ : Type} [DecidableEq κ] (f : α → κ) :
    ∀ (l : List α) (seen : List κ) (a : α),
      a ∈ dedupFirstBy f l seen → f a ∉ seen := by
  intro l
  induction l with
  | nil => intro seen a h; simp [dedupFirstBy] at h
  | cons x xs ih =>
    intro seen a h
    by_cases hx : f x ∈ seen
    · rw [dedupFirstBy, if_pos hx] at h
      exact ih seen a h
    · rw [dedupFirstBy, if_neg hx] at h
      rcases List.mem_cons.mp h with rfl | h'
      · exact hx
      · intro hseen
        exact ih (f x :: seen) a h' (List.mem_cons_of_mem _ hseen)

theorem dedupFirstBy_keys_pairwise {α κ : Type} [DecidableEq κ] (f : α → κ) :
    ∀ (l : List α) (seen : List κ),
      (dedupFirstBy f l seen).Pairwise (fun a b => f a ≠ f b) := by
  intro l
  induction l with
  | nil => intro seen; simp [dedupFirstBy]
  | cons x xs ih =>
    intro seen
    by_cases hx : f x ∈ seen
    · rw [dedupFirstBy, if_pos hx]
      exact ih seen
    · rw [dedupFirstBy, if_neg hx]
      refine List.Pairwise.cons ?_ (ih (f x :: seen))
      intro b hb
      have := dedupFirstBy_key_not_seen f xs (f x :: seen) b hb
      intro hfx
      exact this (hfx ▸ List.mem_cons_self (f x) seen)

theorem dedupFirstBy_mem_keys {α κ : Type} [DecidableEq κ] (f : α → κ) :
    ∀ (l : List α) (seen : List κ) (k : κ),
      k ∈ (dedupFirstBy f l seen).map f ↔ k ∈ l.map f ∧ k ∉ seen := by
  intro l
  induction l with
  | nil => intro seen k; simp [dedupFirstBy]
  | cons x xs ih =>
    intro seen k
    by_cases hx : f x ∈ seen
    · rw [dedupFirstBy, if_pos hx]
      rw [ih seen k]
      simp only [List.map_cons, List.mem_cons]
      constructor
      · rintro ⟨hm, hs⟩
        exact ⟨Or.inr hm, hs⟩
      · rintro ⟨hm | hm, hs⟩
        · exact absurd (hm ▸ hx) hs
        · exact ⟨hm, hs⟩
    · rw [dedupFirstBy, if_neg hx]
      simp only [List.map_cons, List.mem_cons, ih (f x :: seen) k]
      constructor
      · rintro (rfl | ⟨hm, hs⟩)
        · exact ⟨Or.inl rfl, hx⟩
        · exact ⟨Or.inr hm, fun hk => hs (Or.inr hk)⟩
      · rintro ⟨rfl | hm, hs⟩
        · exact Or.inl rfl
        · by_cases hk : k = f x
          · exact Or.inl hk
          · exact Or.inr ⟨hm, fun h => h.elim hk hs⟩

theorem dedupFirstBy_dominates {α κ : Type} [DecidableEq κ] (f : α → κ)
    {R : α → α → Prop} (hrefl : ∀ a, R a a) :
    ∀ (l : List α) (seen : List κ), l.Pairwise R →
      ∀ a ∈ dedupFirstBy f l seen, ∀ b ∈ l, f b = f a → R a b := by
  intro l
  induction l with
  | nil => intro seen _ a ha; simp [dedupFirstBy] at ha
  | cons x xs ih =>
    intro seen hp a ha b hb hfb
    rcases List.pairwise_cons.mp hp with ⟨hx, hxs⟩
    by_cases hseen : f x ∈ seen
    · rw [dedupFirstBy, if_pos hseen] at ha
      rcases List.mem_cons.mp hb with rfl | hb'
      · exact absurd (hfb ▸ hseen) (dedupFirstBy_key_not_seen f xs seen a ha)
      · exact ih seen hxs a ha b hb' hfb
    · rw [dedupFirstBy, if_neg hseen] at ha
      rcases List.mem_cons.mp ha with ha1 | ha'
      · rcases List.mem_cons.mp hb with hb1 | hb'
        · rw [ha1, hb1]; exact hrefl x
        · rw [ha1]; exact hx b hb'
      · have hns := dedupFirstBy_key_not_seen f xs (f x :: seen) a ha'
        rcases List.mem_cons.mp hb with rfl | hb'
        · exact absurd (List.mem_cons.mpr (Or.inl hfb.symm)) hns
        · exact ih (f x :: seen) hxs a ha' b hb' hfb

theorem pairwise_ne_countP_le_one {α κ : Type} [DecidableEq κ] (f : α → κ) :
    ∀ (l : List α), l.Pairwise (fun a b => f a ≠ f b) →
      ∀ k : κ, (l.countP (fun a => decide (f a = k))) ≤ 1 := by
  intro l
  induction l with
  | nil => intro _ k; simp
  | cons x xs ih =>
    intro hp k
    rcases List.pairwise_cons.mp hp with ⟨hx, hxs⟩
    rw [List.countP_cons]
    by_cases hk : f x = k
    · have h0 : xs.countP (fun a => decide (f a = k)) = 0 := by
        rw [List.countP_eq_zero]
        intro a ha
        simp only [decide_eq_true_eq]
        rw [← hk]
        exact fun h => hx a ha h.symm
      simp [h0, hk]
    · simp [hk]
      exact ih hxs k

/-! ## Helper lemmas: the two sink mergers -/

theorem excel_write_invoices_cases (e i : List Row) :
    (e ++ i = [] ∧ excel_write_invoices e i = []) ∨
      excel_write_invoices e i =
        dedupFirstBy (·.invoice_id) (List.insertionSort ExcelLeP (e ++ i)) [] := by
  by_cases hemp : (e ++ i).isEmpty = true
  · have hnil := List.isEmpty_iff.mp hemp
    exact Or.inl ⟨hnil, by simp [excel_write_invoices, hemp, hnil]⟩
  · exact Or.inr (by simp [excel_write_invoices, hemp])

theorem sheets_write_invoices_eq (e i : List Row) :
    sheets_write_invoices e i =
      (dedupFirstBy (·.invoice_id)
        (List.insertionSort SheetsLeP ((e ++ i).map toSheetRow)) []).map
        sanitizeSheetRow := rfl

theorem excel_merge_mem_keys (e i : List Row) (k : Option String) :
    k ∈ (excel_write_invoices e i).map (·.invoice_id) ↔
      k ∈ (e ++ i).map (·.invoice_id) := by
  rcases excel_write_invoices_cases e i with ⟨hnil, hm⟩ | hm
  · rw [hm, hnil]
  · have hperm := (List.perm_insertionSort ExcelLeP (e ++ i)).map
      (fun r : Row => r.invoice_id)
    rw [hm]
    rw [dedupFirstBy_mem_keys]
    simp only [List.not_mem_nil, not_false_eq_true, and_true]
    exact hperm.mem_iff

/-! ## Claim C1 -/

/-- C1 counterexample.  The claim asserts that on either sink variant a
null or unparseable `updated_at` sorts before any valid timestamp.  On the
local (excel) variant `updated_at` is compared as a plain string, so the
unparseable value "zzz" outranks the valid timestamp
"2024-02-01T00:00:00Z" and its row — not the February row the claim
requires — survives the merge. -/
theorem c1_counterexample_unparseable_string_wins :
    excel_write_invoices [] [zzzRow, febRow] = [zzzRow] ∧
    zzzRow.updated_at = some "zzz" ∧
    febRow.updated_at = some "2024-02-01T00:00:00Z" ∧
    zzzRow ≠ febRow := by
  refine ⟨by decide, rfl, rfl, by decide⟩

/-- C1 (amended).  After `write_invoices` on either sink variant the sink
holds at most one row per distinct non-null invoice_id, and the kept row's
`updated_at` is maximal among the rows sharing its invoice_id — for the
local variant in the plain lexicographic string order with null smallest
(an unparseable non-null string sorts by its literal characters and can
outrank a valid timestamp), for the remote variant in the parsed-datetime
order with null or unparseable values smallest.  In particular, of two
incoming rows with the same invoice_id and updated_at
"2024-01-01T00:00:00Z" and "2024-02-01T00:00:00Z", only the February row
survives on both variants. -/
theorem c1_merge_invariant_amended :
    (∀ (e i : List Row) (s : String),
        (excel_write_invoices e i).countP
          (fun r => decide (r.invoice_id = some s)) ≤ 1) ∧
    (∀ (e i : List Row), ∀ r ∈ excel_write_invoices e i,
        r ∈ e ++ i ∧
        ∀ r' ∈ e ++ i, r'.invoice_id = r.invoice_id →
          updValLe r'.updated_at r.updated_at = true) ∧
    (∀ (e i : List Row) (s : String),
        (sheets_write_invoices e i).countP
          (fun r => decide (r.invoice_id = some s)) ≤ 1) ∧
    (∀ (e i : List Row), ∀ r ∈ sheets_write_invoices e i,
        ∀ r' ∈ e ++ i, r'.invoice_id = r.invoice_id →
          tsValLe ((toSheetRow r').updated_at) r.updated_at = true) ∧
    excel_write_invoices [] [janRow, febRow] = [febRow] ∧
    sheets_write_invoices [] [janRow, febRow] = [toSheetRow febRow] := by
  refine ⟨?_, ?_, ?_, ?_, by decide, by decide⟩
  · intro e i s
    rcases excel_write_invoices_cases e i with ⟨_, hm⟩ | hm
    · simp [hm]
    · rw [hm]
      exact pairwise_ne_countP_le_one (fun r : Row => r.invoice_id) _
        (dedupFirstBy_keys_pairwise _ _ _) (some s)
  · intro e i r hr
    rcases excel_write_invoices_cases e i with ⟨_, hm⟩ | hm
    · rw [hm] at hr
      exact absurd hr (List.not_mem_nil r)
    · rw [hm] at hr
      refine ⟨(List.mem_insertionSort ExcelLeP).mp (dedupFirstBy_mem _ hr), ?_⟩
      intro r' hr' heq
      have hsortmem : r' ∈ List.insertionSort ExcelLeP (e ++ i) :=
        (List.mem_insertionSort ExcelLeP).mpr hr'
      have hdom := dedupFirstBy_dominates (fun r : Row => r.invoice_id)
        excelLe_refl (List.insertionSort ExcelLeP (e ++ i)) []
        (excel_sorted (e ++ i)) r hr r' hsortmem heq
      exact keyedLe_updLe_of_eq updValLe r.invoice_id r'.invoice_id
        r.updated_at r'.updated_at heq.symm hdom
  · intro e i s
    rw [sheets_write_invoices_eq, List.countP_map]
    have hcomp : ((fun r : SheetRow => decide (r.invoice_id = some s)) ∘
        sanitizeSheetRow) = fun r : SheetRow => decide (r.invoice_id = some s) := by
      funext r
      rfl
    rw [hcomp]
    exact pairwise_ne_countP_le_one (fun r : SheetRow => r.invoice_id) _
      (dedupFirstBy_keys_pairwise _ _ _) (some s)
  · intro e i r hr r' hr' heq
    rw [sheets_write_invoices_eq] at hr
    obtain ⟨r₀, hr₀, rfl⟩ := List.mem_map.mp hr
    have hsortmem : toSheetRow r' ∈
        List.insertionSort SheetsLeP ((e ++ i).map toSheetRow) :=
      (List.mem_insertionSort SheetsLeP).mpr (List.mem_map_of_mem toSheetRow hr')
    have hkey : (toSheetRow r').invoice_id = r₀.invoice_id := heq
    have hdom := dedupFirstBy_dominates (fun r : SheetRow => r.invoice_id)
      sheetsLe_refl (List.insertionSort SheetsLeP ((e ++ i).map toSheetRow)) []
      (sheets_sorted _) r₀ hr₀ (toSheetRow r') hsortmem hkey
    exact keyedLe_updLe_of_eq tsValLe r₀.invoice_id (toSheetRow r').invoice_id
      r₀.updated_at (toSheetRow r').updated_at hkey.symm hdom

/-- C1 witness: the amended invariant applied at concrete inputs. -/
theorem c1_merge_invariant_witness :
    (excel_write_invoices [] [janRow, febRow]).countP
      (fun r => decide (r.invoice_id = some "1")) ≤ 1 ∧
    febRow ∈ [] ++ [janRow, febRow] ∧
    updValLe janRow.updated_at febRow.updated_at = true :=
  ⟨c1_merge_invariant_amended.1 [] [janRow, febRow] "1",
    (c1_merge_invariant_amended.2.1 [] [janRow, febRow] febRow (by decide)).1,
    (c1_merge_invariant_amended.2.1 [] [janRow, febRow] febRow (by decide)).2
      janRow (by decide) (by decide)⟩

/-! ## Claim C2 -/

/-- C2.  Merging the same incoming row sequence twice in succession yields
a sink with exactly the same set of invoice_ids as merging it once. -/
theorem c2_merge_idempotent_ids :
    ∀ (e i : List Row) (k : Option String),
      (k ∈ (excel_write_invoices (excel_write_invoices e i) i).map
          (·.invoice_id)) ↔
        k ∈ (excel_write_invoices e i).map (·.invoice_id) := by
  intro e i k
  rw [excel_merge_mem_keys (excel_write_invoices e i) i k]
  simp only [List.map_append, List.mem_append]
  rw [excel_merge_mem_keys e i k]
  simp only [List.map_append, List.mem_append]
  tauto

/-! ## Claim C9 -/

/-- C9.  Null invoice_ids are also collapsed: after `write_invoices` on
either sink variant the sink holds at most one row with a null invoice_id,
because the keep-first dedup treats all null keys as equal. -/
theorem c9_null_id_collapsed :
    ∀ e i : List Row,
      (excel_write_invoices e i).countP
        (fun r => decide (r.invoice_id = none)) ≤ 1 ∧
      (sheets_write_invoices e i).countP
        (fun r => decide (r.invoice_id = none)) ≤ 1 := by
  intro e i
  constructor
  · rcases excel_write_invoices_cases e i with ⟨_, hm⟩ | hm
    · simp [hm]
    · rw [hm]
      exact pairwise_ne_countP_le_one (fun r : Row => r.invoice_id) _
        (dedupFirstBy_keys_pairwise _ _ _) none
  · rw [sheets_write_invoices_eq, List.countP_map]
    have hcomp : ((fun r : SheetRow => decide (r.invoice_id = none)) ∘
        sanitizeSheetRow) = fun r : SheetRow => decide (r.invoice_id = none) := by
      funext r
      rfl
    rw [hcomp]
    exact pairwise_ne_countP_le_one (fun r : SheetRow => r.invoice_id) _
      (dedupFirstBy_keys_pairwise _ _ _) none

/-! ## Claim C7: the two mergers against each other -/

theorem orderedInsert_toSheetRow (x : Row) (s : List Row)
    (hA : ∀ a ∈ x :: s, ∀ b ∈ x :: s,
      (SheetsLeP (toSheetRow a) (toSheetRow b) ↔ ExcelLeP a b)) :
    List.orderedInsert SheetsLeP (toSheetRow x) (s.map toSheetRow) =
      (List.orderedInsert ExcelLeP x s).map toSheetRow := by
  induction s with
  | nil => rfl
  | cons y ys ih =>
    have hxy := hA x (List.mem_cons_self _ _) y
      (List.mem_cons_of_mem _ (List.mem_cons_self _ _))
    have hsub : ∀ a, a ∈ x :: ys → a ∈ x :: y :: ys := by
      intro a ha
      rcases List.mem_cons.mp ha with rfl | h'
      · exact List.mem_cons_self _ _
      · exact List.mem_cons_of_mem _ (List.mem_cons_of_mem _ h')
    by_cases h : ExcelLeP x y
    · rw [List.map_cons, List.orderedInsert, List.orderedInsert,
        if_pos h, if_pos (hxy.mpr h), List.map_cons, List.map_cons]
    · rw [List.map_cons, List.orderedInsert, List.orderedInsert,
        if_neg h, if_neg (fun hh => h (hxy.mp hh)), List.map_cons,
        ih (fun a ha b hb => hA a (hsub a ha) b (hsub b hb))]

theorem insertionSort_toSheetRow (l : List Row)
    (hA : ∀ a ∈ l, ∀ b ∈ l,
      (SheetsLeP (toSheetRow a) (toSheetRow b) ↔ ExcelLeP a b)) :
    List.insertionSort SheetsLeP (l.map toSheetRow) =
      (List.insertionSort ExcelLeP l).map toSheetRow := by
  induction l with
  | nil => rfl
  | cons x xs ih =>
    have hsubtail : ∀ a, a ∈ xs → a ∈ x :: xs :=
      fun a ha => List.mem_cons_of_mem _ ha
    rw [List.map_cons, List.insertionSort, List.insertionSort,
      ih (fun a ha b hb => hA a (hsubtail a ha) b (hsubtail b hb))]
    apply orderedInsert_toSheetRow x (List.insertionSort ExcelLeP xs)
    intro a ha b hb
    have hmem : ∀ c, c ∈ x :: List.insertionSort ExcelLeP xs → c ∈ x :: xs := by
      intro c hc
      rcases List.mem_cons.mp hc with rfl | h'
      · exact List.mem_cons_self _ _
      · exact List.mem_cons_of_mem _ ((List.mem_insertionSort ExcelLeP).mp h')
    exact hA a (hmem a ha) b (hmem b hb)

theorem dedupFirstBy_toSheetRow :
    ∀ (l : List Row) (seen : List (Option String)),
      dedupFirstBy (·.invoice_id) (l.map toSheetRow) seen =
        (dedupFirstBy (·.invoice_id) l seen).map toSheetRow := by
  intro l
  induction l with
  | nil => intro seen; rfl
  | cons x xs ih =>
    intro seen
    by_cases h : x.invoice_id ∈ seen
    · rw [List.map_cons, dedupFirstBy, dedupFirstBy]
      simp only [toSheetRow, if_pos h]
      exact ih seen
    · rw [List.map_cons, dedupFirstBy, dedupFirstBy]
      simp only [toSheetRow, if_neg h, List.map_cons]
      rw [ih (x.invoice_id :: seen)]

theorem sanitizeSheetRow_eq_self (r : SheetRow)
    (h : finiteTotal r.total_amount = true) : sanitizeSheetRow r = r := by
  obtain ⟨id, d, bu, jt, ta, ua⟩ := r
  match ta with
  | none => rfl
  | some (.finite q) => rfl
  | some .inf => simp [finiteTotal] at h
  | some .neginf => simp [finiteTotal] at h
  | some .nan => simp [finiteTotal] at h

/-- C7 counterexample.  The claim asserts both variants sanitize
positive/negative infinity to null before persisting.  The local (excel)
variant has no sanitization step: a row with total `+inf` is persisted
unchanged, while the remote variant nulls it. -/
theorem c7_counterexample_sanitize_divergence :
    excel_write_invoices [] [infRow] = [infRow] ∧
    infRow.total_amount = some PyNum.inf ∧
    (sheets_write_invoices [] [infRow]).map (·.total_amount) = [none] := by
  refine ⟨by decide, rfl, by decide⟩

/-- C7 (amended).  Both sink variants share the same
concatenate → sort by (invoice_id asc, updated_at desc, nulls last) →
keep-first-per-invoice_id dedup pipeline, but they normalize `updated_at`
differently (plain string cast locally, datetime parsing remotely) and
only the remote variant sanitizes non-finite numerics to null.  Whenever
the two updated_at orderings agree on the given rows (in particular when
every updated_at is null or a canonical ISO timestamp) and every total is
finite or null, the two mergers keep exactly the same surviving row per
invoice_id: the remote result is the local result under the
`pd.to_datetime` column rewrite. -/
theorem c7_merge_agreement_amended :
    ∀ e i : List Row,
      (∀ a ∈ e ++ i, ∀ b ∈ e ++ i,
        (SheetsLeP (toSheetRow a) (toSheetRow b) ↔ ExcelLeP a b)) →
      (∀ r ∈ e ++ i, finiteTotal r.total_amount = true) →
      sheets_write_invoices e i = (excel_write_invoices e i).map toSheetRow := by
  intro e i hA hFin
  rcases excel_write_invoices_cases e i with ⟨hnil, hm⟩ | hm
  · rw [hm, sheets_write_invoices_eq, hnil]
    rfl
  · rw [hm, sheets_write_invoices_eq, insertionSort_toSheetRow (e ++ i) hA,
      dedupFirstBy_toSheetRow, List.map_map]
    apply List.map_congr_left
    intro r hr
    have hrmem : r ∈ e ++ i :=
      (List.mem_insertionSort ExcelLeP).mp (dedupFirstBy_mem _ hr)
    simp only [Function.comp_apply]
    exact sanitizeSheetRow_eq_self (toSheetRow r) (hFin r hrmem)

/-- C7 witness: the agreement applied at concrete canonical inputs. -/
theorem c7_merge_agreement_witness :
    sheets_write_invoices [janRow] [febRow] =
      (excel_write_invoices [janRow] [febRow]).map toSheetRow :=
  c7_merge_agreement_amended [janRow] [febRow] (by decide) (by decide)

/-! ## Claim C3 -/

theorem pyOr_left_assoc (a b c : JValue) :
    pyOr (pyOr a b) c =
      if truthy a then a else if truthy b then b else c := by
  by_cases ha : truthy a <;> by_cases hb : truthy b <;> simp [pyOr, ha, hb]

theorem pyOr_left_assoc3 (a b c d : JValue) :
    pyOr (pyOr (pyOr a b) c) d =
      if truthy a then a
      else if truthy b then b
      else if truthy c then c else d := by
  by_cases ha : truthy a <;> by_cases hb : truthy b <;>
    by_cases hc : truthy c <;> simp [pyOr, ha, hb, hc]

theorem firstTruthy_three (a b c : JValue) :
    firstTruthy [a, b, c] =
      if truthy a then a else if truthy b then b else c := by
  simp [firstTruthy]

theorem firstTruthy_four (a b c d : JValue) :
    firstTruthy [a, b, c, d] =
      if truthy a then a
      else if truthy b then b
      else if truthy c then c else d := by
  simp [firstTruthy]

/-- C3 counterexample.  The claim says the first alias key present wins
even when its value is falsy, so on `{"id": 0, "invoiceId": 5}` the
identifier should be `0`.  The code's `or`-chain skips the falsy `0` and
extracts `5` from the later alias. -/
theorem c3_counterexample_falsy_alias_skipped :
    extract_invoice_id zeroIdRec = JValue.num 5 ∧
    JValue.num 5 ≠ JValue.num 0 := by
  constructor
  · rfl
  · intro h
    injection h with h'
    exact absurd h' (by norm_num)

/-- C3 (amended).  Every logical field is extracted by a
first-truthy-wins scan of its alias list: each alias is consulted in
order and the first truthy value wins; falsy values (null, False, 0, "",
empty containers) are skipped, and when no alias is truthy the field
takes the last alias expression's value. -/
theorem c3_extraction_first_truthy :
    ∀ inv : RawRecord,
      extract_invoice_id inv =
        firstTruthy [dictGet inv "id", dictGet inv "invoiceId",
          dictGet inv "invoice_id"] ∧
      extract_invoice_date_raw inv =
        firstTruthy [dictGet inv "invoiceDate", dictGet inv "date",
          dictGet inv "createdOn"] ∧
      extract_updated_at_raw inv =
        firstTruthy [dictGet inv "modifiedOn", dictGet inv "updatedOn",
          dictGet inv "updatedAt", dictGet inv "updated_at"] ∧
      extract_business_unit_name inv =
        firstTruthy [safe_get inv ["businessUnit", "name"],
          dictGet inv "businessUnitName", dictGet inv "businessUnit"] ∧
      extract_job_type_name inv =
        firstTruthy [safe_get inv ["jobType", "name"],
          dictGet inv "jobTypeName", dictGet inv "jobType"] ∧
      extract_total inv =
        firstTruthy [dictGet inv "total", dictGet inv "totalAmount",
          safe_get inv ["summary", "total"]] := by
  intro inv
  refine ⟨?_, ?_, ?_, ?_, ?_, ?_⟩
  · rw [extract_invoice_id, pyOr_left_assoc, firstTruthy_three]
  · rw [extract_invoice_date_raw, pyOr_left_assoc, firstTruthy_three]
  · rw [extract_updated_at_raw, pyOr_left_assoc3, firstTruthy_four]
  · rw [extract_business_unit_name, pyOr_left_assoc, firstTruthy_three]
  · rw [extract_job_type_name, pyOr_left_assoc, firstTruthy_three]
  · rw [extract_total, pyOr_left_assoc, firstTruthy_three]

/-! ## Claim C8 -/

/-- C8.  `transform` is total by construction; for every input record
sequence it yields one row per record, the empty frame for empty input,
every row carries exactly the six columns in the fixed order, and
unparseable date, timestamp and numeric values become null cells. -/
theorem c8_transform_total_schema :
    ∀ invs : List RawRecord,
      (transform invs).cols = REQUIRED_COLUMNS ∧
      (transform invs).rows.length = invs.length ∧
      (invs = [] → (transform invs).rows = []) ∧
      (∀ r ∈ (transform invs).rows,
        (rowCells r).map Prod.fst = REQUIRED_COLUMNS) ∧
      (∀ inv ∈ invs,
        formatRow (extractRecord inv) ∈ (transform invs).rows ∧
        (pandasToDatetime (extractRecord inv).invoice_date = none →
          (formatRow (extractRecord inv)).invoice_date = none) ∧
        (pandasToDatetime (extractRecord inv).updated_at = none →
          (formatRow (extractRecord inv)).updated_at = none) ∧
        (pandasToNumeric (extractRecord inv).total_amount = none →
          (formatRow (extractRecord inv)).total_amount = none)) := by
  intro invs
  refine ⟨rfl, by simp [transform], ?_, ?_, ?_⟩
  · intro h
    rw [h]
    rfl
  · intro r _
    rfl
  · intro inv hinv
    refine ⟨List.mem_map_of_mem _ hinv, ?_, ?_, ?_⟩
    · intro h
      simp [formatRow, h]
    · intro h
      simp [formatRow, h]
    · intro h
      simp [formatRow, h]

/-- C8 witness: the schema/totality facts applied to a concrete record
whose date, timestamp and total are unparseable. -/
theorem c8_transform_total_schema_witness :
    (transform [badRec]).cols = REQUIRED_COLUMNS ∧
    (formatRow (extractRecord badRec)).invoice_date = none ∧
    (formatRow (extractRecord badRec)).updated_at = none ∧
    (formatRow (extractRecord badRec)).total_amount = none :=
  ⟨(c8_transform_total_schema [badRec]).1,
    ((c8_transform_total_schema [badRec]).2.2.2.2 badRec
      (List.mem_singleton.mpr rfl)).2.1 (by decide),
    ((c8_transform_total_schema [badRec]).2.2.2.2 badRec
      (List.mem_singleton.mpr rfl)).2.2.1 (by decide),
    ((c8_transform_total_schema [badRec]).2.2.2.2 badRec
      (List.mem_singleton.mpr rfl)).2.2.2 (by decide)⟩

/-! ## Claim C4 -/

theorem get_paginated_stops (page_size : Nat) :
    ∀ (ps : List PageResponse) (page : Nat),
      stopIdx ps < ps.length →
      (∀ p ∈ ps.take (stopIdx ps + 1), dataIsList p = true) →
      get_paginated page_size page ps =
        .ok (((ps.take (stopIdx ps + 1)).map pageMappingItems).flatten,
          (List.range' page (stopIdx ps + 1)).map (fun k => (k, page_size))) := by
  intro ps
  induction ps with
  | nil => intro page h _; simp [stopIdx] at h
  | cons p rest ih =>
    intro page hstop hdata
    have hd : dataIsList p = true :=
      hdata p (by rw [List.take_succ_cons]; exact List.mem_cons_self _ _)
    by_cases hm : truthyHasMore p = true
    · have hidx : stopIdx (p :: rest) = stopIdx rest + 1 := by
        simp [stopIdx, List.findIdx_cons, hm]
      have hstop' : stopIdx rest < rest.length := by
        rw [hidx] at hstop
        simpa using hstop
      have hdata' : ∀ q ∈ rest.take (stopIdx rest + 1), dataIsList q = true := by
        intro q hq
        apply hdata q
        rw [hidx, List.take_succ_cons]
        exact List.mem_cons_of_mem _ hq
      rw [hidx]
      simp only [get_paginated, if_pos hd, if_pos hm,
        ih (page + 1) hstop' hdata', List.take_succ_cons, List.map_cons,
        List.flatten_cons, List.range'_succ]

    · have hm' : truthyHasMore p = false := by
        revert hm
        cases truthyHasMore p <;> simp
      have hidx : stopIdx (p :: rest) = 0 := by
        simp [stopIdx, List.findIdx_cons, hm']
      rw [hidx]
      simp only [get_paginated, if_pos hd, hm', Bool.false_eq_true, if_false,
        List.take_succ_cons, List.take_zero, List.map_cons, List.map_nil,
        List.flatten_cons, List.flatten_nil, List.append_nil, List.range'_one]
      simp [List.range'_one]

theorem get_paginated_data_error (page_size : Nat) :
    ∀ (pre : List PageResponse) (page : Nat) (p : PageResponse)
      (rest : List PageResponse),
      (∀ q ∈ pre, dataIsList q = true ∧ truthyHasMore q = true) →
      dataIsList p = false →
      get_paginated page_size page (pre ++ p :: rest) = .error .dataNotList := by
  intro pre
  induction pre with
  | nil =>
    intro page p rest _ hp
    simp only [List.nil_append, get_paginated, hp, Bool.false_eq_true, if_false]
  | cons q qre ih =>
    intro page p rest hpre hp
    have hq := hpre q (List.mem_cons_self _ _)
    have hpre' : ∀ u ∈ qre, dataIsList u = true ∧ truthyHasMore u = true :=
      fun u hu => hpre u (List.mem_cons_of_mem _ hu)
    simp only [List.cons_append, get_paginated, if_pos hq.1, if_pos hq.2,
      List.append_eq, ih (page + 1) p rest hpre' hp]

/-- C4 counterexample.  The claim terminates pagination only when
`hasMore` is absent or false; here page 1 carries `hasMore: null`
(present, not `false`), so under the claim both pages' mapping elements
should be yielded in two requests.  The code applies Python truthiness,
stops at page 1, and yields only the first page's single element. -/
theorem c4_counterexample_null_hasMore_stops :
    get_paginated 500 1 nullMorePages = .ok ([[("k", JValue.num 1)]], [(1, 500)]) ∧
    ((nullMorePages.map pageMappingItems).flatten).length = 2 := by
  exact ⟨rfl, rfl⟩

/-- C4 (amended).  `get_paginated` issues requests with `Page` starting at
1 and incrementing by 1 at a fixed `PageSize`, yields exactly the
mapping-typed elements of each page's `data` list in page order up to and
including the first page whose `hasMore` is absent or falsy under Python
truthiness (false, null, 0, empty string or containers), terminates
there, and fails with ApiError when a page it reaches has a `data` field
that is present but not list-typed (an absent `data` defaults to an empty
list, not an error). -/
theorem c4_pagination_amended :
    ∀ (ps : List PageResponse) (page_size : Nat),
      (stopIdx ps < ps.length →
        (∀ p ∈ ps.take (stopIdx ps + 1), dataIsList p = true) →
        get_paginated page_size 1 ps =
          .ok (((ps.take (stopIdx ps + 1)).map pageMappingItems).flatten,
            (List.range' 1 (stopIdx ps + 1)).map (fun k => (k, page_size)))) ∧
      (∀ (pre : List PageResponse) (p : PageResponse) (rest : List PageResponse),
        ps = pre ++ p :: rest →
        (∀ q ∈ pre, dataIsList q = true ∧ truthyHasMore q = true) →
        dataIsList p = false →
        get_paginated page_size 1 ps = .error .dataNotList) :=
  fun ps page_size =>
    ⟨fun h1 h2 => get_paginated_stops page_size ps 1 h1 h2,
      fun pre p rest heq hpre hp =>
        heq ▸ get_paginated_data_error page_size pre 1 p rest hpre hp⟩

/-- C4 witness: the amended pagination contract applied to a concrete
two-page source whose final page has `hasMore=false`. -/
theorem c4_pagination_witness :
    get_paginated 500 1 twoPages =
      .ok (((twoPages.take (stopIdx twoPages + 1)).map pageMappingItems).flatten,
        (List.range' 1 (stopIdx twoPages + 1)).map (fun k => (k, 500))) :=
  (c4_pagination_amended twoPages 500).1 (by decide) (by decide)

/-! ## Claim C5 -/

theorem request_new_token_expiry (r : HttpResponse) (nowT : Int) (tok : AccessToken)
    (h : request_new_token (.resp r) nowT = .ok tok) :
    ∃ expires_in : Int, 0 < expires_in ∧
      tok.expires_at_epoch = nowT + max 0 (expires_in - 30) := by
  unfold request_new_token at h
  dsimp only at h
  by_cases hst : r.status_code ≠ 200
  · rw [if_pos hst] at h
    simp at h
  · rw [if_neg hst] at h
    match hjb : r.jsonBody with
    | none => rw [hjb] at h; simp at h
    | some payload =>
      rw [hjb] at h
      match payload with
      | .null => simp at h
      | .bool _ => simp at h
      | .num _ => simp at h
      | .str _ => simp at h
      | .arr _ => simp at h
      | .obj fields =>
        simp only at h
        match hint : pyIntCoerce ((List.lookup "expires_in" fields).getD (.num 0)) with
        | none => rw [hint] at h; simp at h
        | some expires_in =>
          rw [hint] at h
          simp only at h
          by_cases hbad :
              pyStrip (pyRepr ((List.lookup "access_token" fields).getD (.str ""))) = ""
              ∨ expires_in ≤ 0
          · rw [if_pos hbad] at h
            simp at h
          · rw [if_neg hbad] at h
            simp only [Except.ok.injEq] at h
            push_neg at hbad
            refine ⟨expires_in, by omega, ?_⟩
            rw [← h]

/-- C5.  If a cached token exists and "now" is strictly before its
recorded expiry, `get_token` returns it unchanged with no network call;
otherwise it performs the exchange (one network call) and, on success,
caches a token whose expiry is `now + max(0, expires_in - 30)`; hence a
second call within the validity window makes no further network call and
a call at or after expiry makes one. -/
theorem c5_token_cache :
    (∀ (t : AccessToken) (nowT : Int) (o : PostOutcome),
      is_valid nowT t = true →
        get_token (some t) nowT o = (.ok t.token, some t, 0)) ∧
    (∀ (cached : Option AccessToken) (nowT : Int) (o : PostOutcome),
      (∀ t, cached = some t → is_valid nowT t = false) →
        (get_token cached nowT o).2.2 = 1) ∧
    (∀ (cached : Option AccessToken) (nowT : Int) (o : PostOutcome)
        (tok : AccessToken),
      (∀ t, cached = some t → is_valid nowT t = false) →
      request_new_token o nowT = .ok tok →
        get_token cached nowT o = (.ok tok.token, some tok, 1)) ∧
    (∀ (r : HttpResponse) (nowT : Int) (tok : AccessToken),
      request_new_token (.resp r) nowT = .ok tok →
        ∃ expires_in : Int, 0 < expires_in ∧
          tok.expires_at_epoch = nowT + max 0 (expires_in - 30)) ∧
    (∀ (nowT₂ : Int) (o₂ : PostOutcome) (tok : AccessToken),
      nowT₂ < tok.expires_at_epoch →
        get_token (some tok) nowT₂ o₂ = (.ok tok.token, some tok, 0)) ∧
    (∀ (nowT₃ : Int) (o₃ : PostOutcome) (tok : AccessToken),
      tok.expires_at_epoch ≤ nowT₃ → (get_token (some tok) nowT₃ o₃).2.2 = 1) := by
  refine ⟨?_, ?_, ?_, request_new_token_expiry, ?_, ?_⟩
  · intro t nowT o hv
    simp [get_token, hv]
  · intro cached nowT o hinv
    match cached with
    | none =>
      simp only [get_token]
      match request_new_token o nowT with
      | .ok tok => rfl
      | .error e => rfl
    | some t =>
      have hv := hinv t rfl
      simp only [get_token, hv, Bool.false_eq_true, if_false]
      match request_new_token o nowT with
      | .ok tok => rfl
      | .error e => rfl
  · intro cached nowT o tok hinv hreq
    match cached with
    | none => simp [get_token, hreq]
    | some t =>
      have hv := hinv t rfl
      simp [get_token, hv, hreq]
  · intro nowT₂ o₂ tok hlt
    have hv : is_valid nowT₂ tok = true := by
      simp [is_valid, hlt]
    simp [get_token, hv]
  · intro nowT₃ o₃ tok hge
    have hv : is_valid nowT₃ tok = false := by
      simp [is_valid]
      omega
    simp only [get_token, hv, Bool.false_eq_true, if_false]
    match request_new_token o₃ nowT₃ with
    | .ok t => rfl
    | .error e => rfl

/-- C5 witness: a fresh fetch caches expiry `now + (3600 - 30)`, a second
call inside the window serves the cache with no network call, and a call
at expiry makes a network call. -/
theorem c5_token_cache_witness :
    get_token (some ⟨"abc", 3620⟩) 100 .exn = (.ok "abc", some ⟨"abc", 3620⟩, 0) ∧
    (∃ expires_in : Int, 0 < expires_in ∧
      (3620 : Int) = 50 + max 0 (expires_in - 30)) ∧
    (get_token (some ⟨"abc", 3620⟩) 3620 .exn).2.2 = 1 :=
  ⟨c5_token_cache.1 ⟨"abc", 3620⟩ 100 .exn (by decide),
    c5_token_cache.2.2.2.1
      ⟨200, some (.obj [("access_token", .str " abc "), ("expires_in", .num 3600)])⟩
      50 ⟨"abc", 3620⟩ (by rfl),
    c5_token_cache.2.2.2.2.2 3620 .exn ⟨"abc", 3620⟩ (by decide)⟩

/-! ## Claim C10 -/

/-- C10.  `get_token` mutates the cached-token slot only on success: when
token retrieval raises AuthError the slot is exactly what it was before
the call. -/
theorem c10_cache_unchanged_on_error :
    ∀ (cached : Option AccessToken) (nowT : Int) (o : PostOutcome),
      (get_token cached nowT o).1 = .error .authError →
      (get_token cached nowT o).2.1 = cached := by
  intro cached nowT o h
  cases cached with
  | none =>
    cases hr : request_new_token o nowT with
    | ok tok =>
      simp only [get_token, hr] at h
      simp at h
    | error e =>
      simp [get_token, hr]
  | some t =>
    by_cases hv : is_valid nowT t = true
    · simp [get_token, hv]
    · cases hr : request_new_token o nowT with
      | ok tok =>
        simp only [get_token, if_neg hv, hr] at h
        simp at h
      | error e =>
        simp [get_token, if_neg hv, hr]

/-- C10 witness: a failing exchange (network exception) leaves an expired
cached token in place. -/
theorem c10_cache_unchanged_on_error_witness :
    (get_token (some ⟨"tok", 100⟩) 100 .exn).2.1 = some ⟨"tok", 100⟩ :=
  c10_cache_unchanged_on_error (some ⟨"tok", 100⟩) 100 .exn (by rfl)

/-! ## Claim C6 -/

theorem digitChar_ne_plus (d : Nat) : digitChar d ≠ '+' := by
  unfold digitChar
  split_ifs <;> decide

theorem pad2chars_ne_plus (n : Nat) : ∀ c ∈ pad2chars n, c ≠ '+' := by
  intro c hc
  simp only [pad2chars, List.mem_cons, List.not_mem_nil, or_false] at hc
  rcases hc with rfl | rfl <;> exact digitChar_ne_plus _

theorem pad4chars_ne_plus (n : Nat) : ∀ c ∈ pad4chars n, c ≠ '+' := by
  intro c hc
  simp only [pad4chars, List.mem_cons, List.not_mem_nil, or_false] at hc
  rcases hc with rfl | rfl | rfl | rfl <;> exact digitChar_ne_plus _

theorem pad6chars_ne_plus (n : Nat) : ∀ c ∈ pad6chars n, c ≠ '+' := by
  intro c hc
  simp only [pad6chars, List.mem_cons, List.not_mem_nil, or_false] at hc
  rcases hc with rfl | rfl | rfl | rfl | rfl | rfl <;> exact digitChar_ne_plus _

theorem isoPrefix_ne_plus (t : PyDateTime) :
    ∀ c ∈ dateChars t ++ 'T' :: timeChars t ++ microChars t, c ≠ '+' := by
  intro c hc
  rcases List.mem_append.mp hc with h | h
  · rcases List.mem_append.mp h with h | h
    · unfold dateChars at h
      rcases List.mem_append.mp h with h | h
      · rcases List.mem_append.mp h with h | h
        · exact pad4chars_ne_plus _ _ h
        · rcases List.mem_cons.mp h with rfl | h
          · decide
          · exact pad2chars_ne_plus _ _ h
      · rcases List.mem_cons.mp h with rfl | h
        · decide
        · exact pad2chars_ne_plus _ _ h
    · rcases List.mem_cons.mp h with rfl | h
      · decide
      · unfold timeChars at h
        rcases List.mem_append.mp h with h | h
        · rcases List.mem_append.mp h with h | h
          · exact pad2chars_ne_plus _ _ h
          · rcases List.mem_cons.mp h with rfl | h
            · decide
            · exact pad2chars_ne_plus _ _ h
        · rcases List.mem_cons.mp h with rfl | h
          · decide
          · exact pad2chars_ne_plus _ _ h
  · unfold microChars at h
    by_cases h0 : t.microsecond = 0
    · rw [if_pos h0] at h
      exact absurd h (List.not_mem_nil c)
    · rw [if_neg h0] at h
      rcases List.mem_cons.mp h with rfl | h
      · decide
      · exact pad6chars_ne_plus _ _ h

theorem charsReplace_nil (pat rep : List Char) :
    ∀ f : Nat, charsReplace pat rep f [] = [] := by
  intro f
  cases f <;> rfl

theorem charsReplace_tail (rep : List Char) :
    ∀ (xs : List Char) (fuel : Nat), (xs ++ plusZeroZone).length ≤ fuel →
      (∀ c ∈ xs, c ≠ '+') →
      charsReplace plusZeroZone rep fuel (xs ++ plusZeroZone) = xs ++ rep := by
  intro xs
  induction xs with
  | nil =>
    intro fuel hf _
    obtain ⟨f, rfl⟩ : ∃ f, fuel = f + 1 := by
      refine ⟨fuel - 1, ?_⟩
      simp [plusZeroZone] at hf
      omega
    rw [List.nil_append]
    rw [show plusZeroZone = '+' :: ['0', '0', ':', '0', '0'] from rfl]
    rw [charsReplace, if_pos (by decide)]
    simp [charsReplace_nil]
  | cons c xs ih =>
    intro fuel hf hx
    obtain ⟨f, rfl⟩ : ∃ f, fuel = f + 1 := by
      refine ⟨fuel - 1, ?_⟩
      simp at hf
      omega
    have hcp : c ≠ '+' := hx c (List.mem_cons_self _ _)
    have hpf : (plusZeroZone.isPrefixOf (c :: (xs ++ plusZeroZone))) = false := by
      cases hbc : (('+' : Char) == c) with
      | true => exact absurd (eq_of_beq hbc).symm hcp
      | false => simp [plusZeroZone, List.isPrefixOf, hbc]
    rw [List.cons_append, charsReplace, if_neg (by simp [hpf])]
    rw [ih f (by simp at hf ⊢; omega) (fun u hu => hx u (List.mem_cons_of_mem _ hu))]
    rfl

/-- C6 counterexample.  The claim says the persisted cursor is a
second-precision ISO string with no fractional seconds; at an instant
with nonzero microseconds the code persists the microseconds. -/
theorem c6_counterexample_microseconds :
    update_sync_state_to_now ⟨2024, 5, 6, 7, 8, 9, 123456⟩ =
      ⟨some "2024-05-06T07:08:09.123456Z"⟩ ∧
    some "2024-05-06T07:08:09.123456Z" ≠ some "2024-05-06T07:08:09Z" := by
  exact ⟨by decide, by decide⟩

/-- C6 (amended).  `update_sync_state_to_now` persists the current UTC
instant as a Z-suffixed ISO-8601 string — at microsecond precision
whenever the instant's microsecond component is nonzero, and at second
precision only when it is zero — as the sole persisted field, fully
overwriting the cursor file content. -/
theorem c6_cursor_format_amended :
    ∀ t : PyDateTime,
      update_sync_state_to_now t =
        ⟨some (String.mk ((dateChars t ++ 'T' :: timeChars t ++ microChars t)
          ++ ['Z']))⟩ := by
  intro t
  have key : pyReplace (pyIsoformatUtc t) "+00:00" "Z"
      = String.mk ((dateChars t ++ 'T' :: timeChars t ++ microChars t) ++ ['Z']) := by
    unfold pyReplace pyIsoformatUtc
    dsimp only
    rw [show (['+', '0', '0', ':', '0', '0'] : List Char) = plusZeroZone from rfl]
    exact congrArg String.mk
      (charsReplace_tail ['Z'] (dateChars t ++ 'T' :: timeChars t ++ microChars t)
        _ le_rfl (isoPrefix_ne_plus t))
  simp only [update_sync_state_to_now, key]
